import Mathlib

/-!
# Shapes library: shallow embedding and verification

Shallow Lean embedding of a small 2D geometry library (`src/index.ts`):
points, segments, polygonal shapes (`SegmentedShape` and its rectangle /
square / triangle specializations) and ellipses / circles, together with
proofs about their area, perimeter, containment and boundary-intersection
operations.

Modelling conventions:
* JavaScript numbers are modelled as real numbers (`ℝ`).
* The mutable module-level `DEFAULT_EPSILON` is threaded explicitly: every
  boundary test takes a `glob : ℝ` argument holding the current value of the
  global, and an `eps? : Option ℝ` argument; `none` models a call that omits
  the `epsilon` parameter (so the default `glob` is used), `some ε` models an
  explicit argument.
* `throw` is modelled with `Except GeomError`; the two distinct error shapes
  of the source (`RangeError` vs plain `Error`) are the two constructors.
* Array indexing `items[i]` at a possibly negative integer index yields
  `undefined` in JavaScript; this is modelled by `Option` (`jsGet`).
-/

noncomputable section

/-- 2D point with coordinates `(x, y)` (class `Point`). -/
structure Point where
  x : ℝ
  y : ℝ

/-- Default value handed to `List.getD`; in-range indexing never reaches it. -/
def Point.origin : Point := ⟨0, 0⟩

/-- Euclidean distance, `Math.sqrt((x1-x2)^2 + (y1-y2)^2)` (`Point.distanceTo`). -/
def Point.distanceTo (p other : Point) : ℝ :=
  Real.sqrt ((p.x - other.x) ^ 2 + (p.y - other.y) ^ 2)

/-- Straight segment between two points (class `Segment`). -/
structure Segment where
  a : Point
  b : Point

/-- Default value handed to `List.getD` on segment lists. -/
def Segment.origin : Segment := ⟨Point.origin, Point.origin⟩

/-- Initial value of the module-level `DEFAULT_EPSILON`. -/
def defaultEpsilonInit : ℝ := 0.01

/-- The exported `setEpsilon`, as a transformer of the global state (it
replaces the current `DEFAULT_EPSILON` with `value`). -/
def setEpsilon (value : ℝ) (_current : ℝ) : ℝ := value

/-- Source: `Segment.intersects(p, epsilon = DEFAULT_EPSILON)` returns
`Math.abs(a.distanceTo(p) + b.distanceTo(p) - a.distanceTo(b)) < epsilon`.
`glob` is the current `DEFAULT_EPSILON`, `eps?` the optional argument. -/
def Segment.intersects (glob : ℝ) (s : Segment) (p : Point) (eps? : Option ℝ) : Prop :=
  |s.a.distanceTo p + s.b.distanceTo p - s.a.distanceTo s.b| < eps?.getD glob

/-- Source: `Segment.length` returns `a.distanceTo(b)`. -/
def Segment.length (s : Segment) : ℝ := s.a.distanceTo s.b

/-- The two distinct failures thrown by the library: `RangeError` (indexed
access out of range) and plain `Error` (unsupported ellipse perimeter). -/
inductive GeomError where
  | rangeError : String → GeomError
  | error : String → GeomError

/-- Successor point in the constructor's wraparound traversal:
`i == pts.length - 1 ? pts[0] : pts[i + 1]`. -/
def cyclicNext (ps : List Point) (i : ℕ) : Point :=
  if i = ps.length - 1 then ps.getD 0 Point.origin else ps.getD (i + 1) Point.origin

/-- Simple polygon over an ordered point sequence (class `SegmentedShape`).
The constructor signature `(p1, p2, p3, ...restPoints)` forces at least three
points, recorded here as the field `three_le`. -/
structure SegmentedShape where
  points : List Point
  three_le : 3 ≤ points.length

/-- Segment list built in the constructor:
`points.map((p, i, pts) => new Segment(p, i == pts.length - 1 ? pts[0] : pts[i + 1]))`. -/
def mkSegments (ps : List Point) : List Segment :=
  (List.range ps.length).map fun i => ⟨ps.getD i Point.origin, cyclicNext ps i⟩

/-- The `segments` field of a `SegmentedShape`. -/
def SegmentedShape.segments (s : SegmentedShape) : List Segment := mkSegments s.points

/-- Source: `SegmentedShape.intersects(point, epsilon = DEFAULT_EPSILON)`
returns `segments.some(segment => segment.intersects(point, epsilon))`; the
resolved `epsilon` is always passed explicitly to the segment test. -/
def SegmentedShape.intersects (glob : ℝ) (s : SegmentedShape) (p : Point)
    (eps? : Option ℝ) : Prop :=
  ∃ seg ∈ s.segments, Segment.intersects glob seg p (some (eps?.getD glob))

/-- Index `j` of the ray-casting loop: the previous index, wrapping the first
iteration back to `points.length - 1` (the loop header
`i = 0, j = length - 1; i < length; j = i++`). -/
def prevIdx (n i : ℕ) : ℕ := if i = 0 then n - 1 else i - 1

/-- First conjunct of the ray-casting crossing test:
`(points[i].y > point.y) != (points[j].y > point.y)`, with `pti = points[i]`
and `ptj = points[j]`. -/
def raycastGuard (pti ptj p : Point) : Prop := (pti.y > p.y) ≠ (ptj.y > p.y)

/-- Full crossing test of one loop iteration of `contains`. In the source the
two conjuncts are joined by `&&`, so the second (the one performing the
division by `points[j].y - points[i].y`) is evaluated only when
`raycastGuard` holds. -/
def raycastCrossing (pti ptj p : Point) : Prop :=
  raycastGuard pti ptj p ∧
    p.x < (ptj.x - pti.x) * (p.y - pti.y) / (ptj.y - pti.y) + pti.x

/-- Source: `SegmentedShape.contains(point)`, the even-odd ray-casting loop;
the `hit` flag is toggled whenever the crossing test holds, modelled as an
iterated exclusive or. -/
def SegmentedShape.contains (s : SegmentedShape) (p : Point) : Prop :=
  (List.range s.points.length).foldl
    (fun hit i =>
      Xor' (raycastCrossing (s.points.getD i Point.origin)
        (s.points.getD (prevIdx s.points.length i) Point.origin) p) hit)
    False

/-- Instrumentation of `SegmentedShape.contains`: the divisor
`points[j].y - points[i].y` is evaluated exactly in those iterations whose
guard `(points[i].y > point.y) != (points[j].y > point.y)` holds, because
`&&` short-circuits in JavaScript. This predicate states that some actually
evaluated divisor is zero, i.e. that running `contains` performs a division
by zero. -/
def SegmentedShape.containsDividesByZero (s : SegmentedShape) (p : Point) : Prop :=
  ∃ i < s.points.length,
    raycastGuard (s.points.getD i Point.origin)
      (s.points.getD (prevIdx s.points.length i) Point.origin) p ∧
    (s.points.getD (prevIdx s.points.length i) Point.origin).y -
      (s.points.getD i Point.origin).y = 0

/-- The shape has a perfectly horizontal edge: two consecutive points (in the
wraparound order used by the `contains` loop) share their `y` coordinate. -/
def SegmentedShape.hasHorizontalEdge (s : SegmentedShape) : Prop :=
  ∃ i < s.points.length,
    (s.points.getD i Point.origin).y =
      (s.points.getD (prevIdx s.points.length i) Point.origin).y

/-- JavaScript array read `items[index]` at an integer index: an element for
`0 ≤ index < length`, `undefined` (here `none`) otherwise. -/
def jsGet {T : Type _} (items : List T) (index : ℤ) : Option T :=
  if h : 0 ≤ index ∧ index < items.length then
    some (items.get ⟨index.toNat, by omega⟩)
  else none

/-- Source: `SegmentedShape.safeAt(items, index)` throws
`RangeError("out of range access")` when `index >= items.length` and returns
`items[index]` otherwise (only the upper bound is checked). -/
def safeAt {T : Type _} (items : List T) (index : ℤ) : Except GeomError (Option T) :=
  if (items.length : ℤ) ≤ index then
    Except.error (GeomError.rangeError "out of range access")
  else Except.ok (jsGet items index)

/-- Source: `SegmentedShape.pointAt(index)` is `safeAt(points, index)`. -/
def SegmentedShape.pointAt (s : SegmentedShape) (i : ℤ) : Except GeomError (Option Point) :=
  safeAt s.points i

/-- Source: `SegmentedShape.segmentAt(index)` is `safeAt(segments, index)`. -/
def SegmentedShape.segmentAt (s : SegmentedShape) (i : ℤ) : Except GeomError (Option Segment) :=
  safeAt s.segments i

/-- Body of the shoelace reduce: `(p.x * p2.y - p.y * p2.x) / 2` where `p2`
is the wraparound successor of `p`. -/
def crossTerm (p q : Point) : ℝ := (p.x * q.y - p.y * q.x) / 2

/-- The shoelace accumulation of `SegmentedShape.area`, before the final
`Math.abs`. -/
def shoelace (ps : List Point) : ℝ :=
  (List.range ps.length).foldl
    (fun acc i => acc + crossTerm (ps.getD i Point.origin) (cyclicNext ps i)) 0

/-- Source: `SegmentedShape.area` is `Math.abs` of the shoelace reduce. -/
def SegmentedShape.area (s : SegmentedShape) : ℝ := |shoelace s.points|

/-- The perimeter reduce over the point list: each point contributes its
distance to its wraparound successor. -/
def perimeterOf (ps : List Point) : ℝ :=
  (List.range ps.length).foldl
    (fun acc i => acc + (ps.getD i Point.origin).distanceTo (cyclicNext ps i)) 0

/-- Source: `SegmentedShape.perimeter`, the reduce over consecutive point
pairs with wraparound. -/
def SegmentedShape.perimeter (s : SegmentedShape) : ℝ := perimeterOf s.points

/-- The shape built from the same point list traversed in the opposite
direction (the claim about winding invariance of the shoelace area). -/
def SegmentedShape.reversed (s : SegmentedShape) : SegmentedShape :=
  ⟨s.points.reverse, by simpa using s.three_le⟩

/-- Constructor of `RectangleShape`: delegates to `SegmentedShape` with
`[topLeft, (bottomRight.x, topLeft.y), bottomRight, (topLeft.x, bottomRight.y)]`. -/
def mkRectangleShape (topLeft bottomRight : Point) : SegmentedShape :=
  ⟨[topLeft, ⟨bottomRight.x, topLeft.y⟩, bottomRight, ⟨topLeft.x, bottomRight.y⟩], by simp⟩

/-- Constructor of `SquareShape`: a rectangle with
`bottomRight = (topLeft.x + side, topLeft.y - side)`. -/
def mkSquareShape (topLeft : Point) (side : ℝ) : SegmentedShape :=
  mkRectangleShape topLeft ⟨topLeft.x + side, topLeft.y - side⟩

/-- Constructor of `TriangleShape`: delegates to `SegmentedShape(a, b, c)`. -/
def mkTriangleShape (a b c : Point) : SegmentedShape := ⟨[a, b, c], by simp⟩

/-- Ellipse with a center and two semi-axes (class `EllipseShape`). -/
structure EllipseShape where
  center : Point
  a : ℝ
  b : ℝ

/-- Source: `EllipseShape.area` returns `Math.PI * a * b`. -/
def EllipseShape.area (e : EllipseShape) : ℝ := Real.pi * e.a * e.b

/-- Source: `EllipseShape.perimeter` unconditionally throws
`new Error("too hard to handle!")`. -/
def EllipseShape.perimeter (_e : EllipseShape) : Except GeomError ℝ :=
  Except.error (GeomError.error "too hard to handle!")

/-- Source: `EllipseShape.equationFor(point)` returns
`(point.x - center.x)^2 / a^2 + (point.y - center.y)^2 / b^2`. -/
def EllipseShape.equationFor (e : EllipseShape) (p : Point) : ℝ :=
  (p.x - e.center.x) ^ 2 / e.a ^ 2 + (p.y - e.center.y) ^ 2 / e.b ^ 2

/-- Source: `EllipseShape.intersects(point, epsilon = DEFAULT_EPSILON)`
returns `Math.abs(equationFor(point) - 1) <= epsilon` (non-strict). -/
def EllipseShape.intersects (glob : ℝ) (e : EllipseShape) (p : Point)
    (eps? : Option ℝ) : Prop :=
  |e.equationFor p - 1| ≤ eps?.getD glob

/-- Source: `EllipseShape.contains(point)` returns `equationFor(point) < 1`. -/
def EllipseShape.contains (e : EllipseShape) (p : Point) : Prop := e.equationFor p < 1

/-- Circle (class `CircleShape`, extends `EllipseShape`). -/
structure CircleShape where
  center : Point
  radius : ℝ

/-- The superclass view of a circle: `super(center, radius, radius)`. -/
def CircleShape.toEllipseShape (c : CircleShape) : EllipseShape :=
  ⟨c.center, c.radius, c.radius⟩

/-- Circle area, inherited from `EllipseShape`. -/
def CircleShape.area (c : CircleShape) : ℝ := c.toEllipseShape.area

/-- Source: `CircleShape.perimeter` overrides the ellipse version and returns
`2 * Math.PI * radius`. -/
def CircleShape.perimeter (c : CircleShape) : Except GeomError ℝ :=
  Except.ok (2 * Real.pi * c.radius)

/-- Source: `CircleShape.diameter` returns `radius * 2`. -/
def CircleShape.diameter (c : CircleShape) : ℝ := c.radius * 2

/-- Concrete polygon used to instantiate theorems with hypotheses. -/
def sampleTriangle : SegmentedShape := ⟨[⟨0, 0⟩, ⟨4, 0⟩, ⟨0, 4⟩], by simp⟩

/-! ## Helper lemmas about the cyclic folds -/

/-- Open-chain accumulation of a binary term over consecutive list elements;
the structural counterpart of the source's index-based cyclic folds. -/
def chain (g : Point → Point → ℝ) : List Point → ℝ
  | p :: q :: rest => g p q + chain g (q :: rest)
  | _ => 0

theorem chain_cons₂ (g : Point → Point → ℝ) (a b : Point) (t : List Point) :
    chain g (a :: b :: t) = g a b + chain g (b :: t) := rfl

theorem chain_congr (f g : Point → Point → ℝ) (h : ∀ p q, f p q = g p q) :
    ∀ l : List Point, chain f l = chain g l := by
  intro l
  induction l with
  | nil => rfl
  | cons a t ih =>
    cases t with
    | nil => rfl
    | cons b u => simp only [chain_cons₂] at ih ⊢; rw [h, ih]

theorem chain_neg (g : Point → Point → ℝ) :
    ∀ l : List Point, chain (fun p q => -(g p q)) l = -chain g l := by
  intro l
  induction l with
  | nil => simp [chain]
  | cons a t ih =>
    cases t with
    | nil => simp [chain]
    | cons b u => simp only [chain_cons₂] at ih ⊢; rw [ih]; ring

theorem chain_snoc (g : Point → Point → ℝ) :
    ∀ (t : List Point) (a x : Point),
      chain g ((a :: t) ++ [x]) =
        chain g (a :: t) + g ((a :: t).getLast (by simp)) x := by
  intro t
  induction t with
  | nil => intro a x; simp [chain]
  | cons b u ih =>
    intro a x
    have ih' := ih b x
    simp only [List.cons_append] at ih' ⊢
    rw [chain_cons₂, ih', chain_cons₂]
    rw [List.getLast_cons (by simp : b :: u ≠ [])]
    ring

theorem chain_snoc' (g : Point → Point → ℝ) (l : List Point) (hl : l ≠ []) (x : Point) :
    chain g (l ++ [x]) = chain g l + g (l.getLast hl) x := by
  obtain ⟨a, t, rfl⟩ := List.exists_cons_of_ne_nil hl
  exact chain_snoc g t a x

theorem chain_reverse (g : Point → Point → ℝ) :
    ∀ l : List Point, chain g l.reverse = chain (fun p q => g q p) l := by
  intro l
  induction l with
  | nil => rfl
  | cons a t ih =>
    cases t with
    | nil => rfl
    | cons b u =>
      have hrev : (a :: b :: u).reverse = (b :: u).reverse ++ [a] := by
        simp [List.reverse_cons]
      have hne : (b :: u).reverse ≠ [] := by simp
      rw [hrev, chain_snoc' g _ hne a, ih, List.getLast_reverse hne]
      rw [chain_cons₂]
      simp only [List.head_cons]
      ring

theorem zip_cyclic_eq_chain (g : Point → Point → ℝ) :
    ∀ (t : List Point) (a x : Point),
      (List.zipWith g (a :: t) (t ++ [x])).sum =
        chain g (a :: t) + g ((a :: t).getLast (by simp)) x := by
  intro t
  induction t with
  | nil => intro a x; simp [chain]
  | cons b u ih =>
    intro a x
    have h1 : (b :: u) ++ [x] = b :: (u ++ [x]) := by simp
    rw [h1, List.zipWith_cons_cons, List.sum_cons, ih b x, chain_cons₂]
    rw [List.getLast_cons (by simp : b :: u ≠ [])]
    ring

theorem foldl_add_eq_sum (g : ℕ → ℝ) :
    ∀ (l : List ℕ) (a : ℝ), l.foldl (fun acc i => acc + g i) a = a + (l.map g).sum := by
  intro l
  induction l with
  | nil => intro a; simp
  | cons x t ih => intro a; simp only [List.foldl_cons, List.map_cons, List.sum_cons]; rw [ih]; ring

theorem range_map_cyclic {β : Type _} (g : Point → Point → β) (p : Point) (t : List Point) :
    (List.range (p :: t).length).map
        (fun i => g ((p :: t).getD i Point.origin) (cyclicNext (p :: t) i)) =
      List.zipWith g (p :: t) (t ++ [p]) := by
  apply List.ext_getElem
  · simp [List.length_zipWith]
  · intro i h1 h2
    have hi : i < t.length + 1 := by simpa using h1
    have hip : i < (p :: t).length := by simpa using hi
    rw [List.getElem_map, List.getElem_range, List.getElem_zipWith]
    congr 1
    · exact List.getD_eq_getElem _ _ hip
    · unfold cyclicNext
      by_cases hc : i = (p :: t).length - 1
      · rw [if_pos hc]
        have hit : i = t.length := by simpa using hc
        have h0 : (p :: t).getD 0 Point.origin = p := rfl
        rw [h0, List.getElem_append_right (by omega : t.length ≤ i)]
        simp [hit]
      · rw [if_neg hc]
        have hit : i < t.length := by
          simp only [List.length_cons] at hc
          omega
        rw [List.getD_eq_getElem _ _ (by simpa using Nat.succ_lt_succ hit)]
        rw [List.getElem_cons_succ, List.getElem_append_left hit]

theorem cyclicFold_eq (g : Point → Point → ℝ) (p : Point) (t : List Point) :
    (List.range (p :: t).length).foldl
        (fun acc i => acc + g ((p :: t).getD i Point.origin) (cyclicNext (p :: t) i)) 0 =
      (List.zipWith g (p :: t) (t ++ [p])).sum := by
  rw [foldl_add_eq_sum (fun i => g ((p :: t).getD i Point.origin) (cyclicNext (p :: t) i))]
  rw [zero_add, range_map_cyclic]

theorem shoelace_nil : shoelace [] = 0 := by simp [shoelace]

theorem shoelace_cons_eq_chain (p : Point) (t : List Point) :
    shoelace (p :: t) = chain crossTerm (p :: t) + crossTerm ((p :: t).getLast (by simp)) p := by
  unfold shoelace
  rw [cyclicFold_eq crossTerm p t, zip_cyclic_eq_chain crossTerm t p p]

theorem perimeterOf_cons_eq_chain (p : Point) (t : List Point) :
    perimeterOf (p :: t) =
      chain Point.distanceTo (p :: t) +
        Point.distanceTo ((p :: t).getLast (by simp)) p := by
  unfold perimeterOf
  rw [cyclicFold_eq Point.distanceTo p t, zip_cyclic_eq_chain Point.distanceTo t p p]

theorem crossTerm_antisymm (p q : Point) : crossTerm q p = -crossTerm p q := by
  unfold crossTerm; ring

theorem crossTerm_self (p : Point) : crossTerm p p = 0 := by
  unfold crossTerm; ring

theorem shoelace_reverse : ∀ l : List Point, shoelace l.reverse = -shoelace l := by
  intro l
  cases l with
  | nil => simp [shoelace_nil]
  | cons a t =>
    cases t with
    | nil => simp [shoelace_cons_eq_chain, chain, crossTerm_self]
    | cons b u =>
      have hne : (b :: u).reverse ≠ [] := by simp
      obtain ⟨c, v, hcv⟩ := List.exists_cons_of_ne_nil hne
      have hrev : (a :: b :: u).reverse = c :: (v ++ [a]) := by
        rw [List.reverse_cons, hcv]; simp
      have hchainrev : chain crossTerm (c :: v) = -chain crossTerm (b :: u) := by
        rw [← hcv, chain_reverse]
        rw [chain_congr (fun p q => crossTerm q p) (fun p q => -(crossTerm p q))
          (fun p q => crossTerm_antisymm p q) (b :: u)]
        exact chain_neg crossTerm (b :: u)
      have hc : c = (b :: u).getLast (by simp) := by
        have h1 : (b :: u).getLast? = some c := by
          rw [← List.head?_reverse, hcv]; rfl
        have h2 : (b :: u).getLast? = some ((b :: u).getLast (by simp)) :=
          List.getLast?_eq_getLast _ _
        exact Option.some.inj (h1.symm.trans h2)
      have hlast3 : (c :: v).getLast (by simp) = b := by
        have h1 : (c :: v).getLast? = some b := by
          rw [← hcv, List.getLast?_reverse]; rfl
        have h2 : (c :: v).getLast? = some ((c :: v).getLast (by simp)) :=
          List.getLast?_eq_getLast _ _
        exact Option.some.inj (h2.symm.trans h1)
      rw [hrev, shoelace_cons_eq_chain]
      have e1 := chain_snoc' crossTerm (c :: v) (by simp) a
      simp only [List.cons_append] at e1
      have e2 : ((c :: v) ++ [a]).getLast (by simp) = a := List.getLast_append (by simp)
      simp only [List.cons_append] at e2
      rw [e1, e2, hlast3, hchainrev, hc]
      rw [shoelace_cons_eq_chain, chain_cons₂]
      rw [List.getLast_cons (by simp : b :: u ≠ [])]
      rw [crossTerm_antisymm b a, crossTerm_antisymm a ((b :: u).getLast (by simp))]
      ring

theorem mkSegments_length (ps : List Point) : (mkSegments ps).length = ps.length := by
  simp [mkSegments]

theorem SegmentedShape.segments_length (s : SegmentedShape) :
    s.segments.length = s.points.length := mkSegments_length s.points

theorem mkSegments_getD (ps : List Point) (i : ℕ) (h : i < ps.length) :
    (mkSegments ps).getD i Segment.origin =
      ⟨ps.getD i Point.origin, cyclicNext ps i⟩ := by
  have hlen : i < (mkSegments ps).length := by rwa [mkSegments_length]
  rw [List.getD_eq_getElem _ _ hlen]
  unfold mkSegments
  rw [List.getElem_map, List.getElem_range]

theorem cyclicNext_mod (ps : List Point) (i : ℕ) (h : i < ps.length) :
    cyclicNext ps i = ps.getD ((i + 1) % ps.length) Point.origin := by
  unfold cyclicNext
  by_cases hc : i = ps.length - 1
  · rw [if_pos hc]
    have h1 : i + 1 = ps.length := by omega
    rw [h1, Nat.mod_self]
  · rw [if_neg hc]
    have h1 : (i + 1) % ps.length = i + 1 := Nat.mod_eq_of_lt (by omega)
    rw [h1]

theorem Point.distanceTo_comm (p q : Point) : p.distanceTo q = q.distanceTo p := by
  unfold Point.distanceTo
  congr 1
  ring

/-- Specification of `safeAt` on an integer index: the range error exactly
when the index is at least the length, the stored element for an in-range
index, and no failure (just `undefined`) for a negative index. -/
theorem safeAt_spec {T : Type _} (items : List T) (d : T) (i : ℤ) :
    (safeAt items i = Except.error (GeomError.rangeError "out of range access") ↔
      (items.length : ℤ) ≤ i)
    ∧ (0 ≤ i → i < (items.length : ℤ) →
        safeAt items i = Except.ok (some (items.getD i.toNat d)))
    ∧ (i < 0 → safeAt items i = Except.ok none) := by
  refine ⟨?_, fun h0 hlt => ?_, fun hneg => ?_⟩
  · unfold safeAt
    by_cases h : (items.length : ℤ) ≤ i
    · rw [if_pos h]; simp [h]
    · rw [if_neg h]; simp [h]
  · unfold safeAt jsGet
    rw [if_neg (by omega), dif_pos ⟨h0, hlt⟩]
    congr 2
    rw [List.getD_eq_getElem _ _ (by omega : i.toNat < items.length)]
    rfl
  · unfold safeAt jsGet
    rw [if_neg (by omega), dif_neg (by omega)]

/-! ## Claims -/

/-- C1 (counterexample to the claim): there is no `SegmentedShape` with a
horizontal edge and no test point for which evaluating `contains` performs a
division by zero. The divisor `points[j].y - points[i].y` sits in the second
operand of `&&`, so it is evaluated only when
`(points[i].y > point.y) != (points[j].y > point.y)` — which is false
whenever `points[i].y = points[j].y`. -/
theorem contains_never_performs_division_by_zero :
    ¬ ∃ (s : SegmentedShape) (p : Point),
        s.hasHorizontalEdge ∧ s.containsDividesByZero p := by
  rintro ⟨s, p, -, i, hi, hguard, hdiv⟩
  unfold raycastGuard at hguard
  apply hguard
  congr 1
  linarith

/-- C1 (amended): in every iteration of the `contains` loop, whenever the
crossing guard holds (the only situation in which the division is evaluated,
because `&&` short-circuits), the divisor `points[j].y - points[i].y` is
nonzero; so `contains` never divides by zero, horizontal edges included. -/
theorem contains_guard_forces_nonzero_divisor (s : SegmentedShape) (p : Point) (i : ℕ)
    (_hi : i < s.points.length)
    (hg : raycastGuard (s.points.getD i Point.origin)
      (s.points.getD (prevIdx s.points.length i) Point.origin) p) :
    (s.points.getD (prevIdx s.points.length i) Point.origin).y -
      (s.points.getD i Point.origin).y ≠ 0 := by
  intro h0
  unfold raycastGuard at hg
  apply hg
  congr 1
  linarith

/-- C1 witness: on the triangle `(0,0), (4,0), (0,4)` with test point
`(1,1)`, iteration `i = 2` (so `j = 1`) passes the guard and its divisor is
nonzero. -/
theorem contains_guard_forces_nonzero_divisor_witness :
    2 < sampleTriangle.points.length
    ∧ raycastGuard (sampleTriangle.points.getD 2 Point.origin)
        (sampleTriangle.points.getD (prevIdx sampleTriangle.points.length 2) Point.origin)
        ⟨1, 1⟩
    ∧ (sampleTriangle.points.getD (prevIdx sampleTriangle.points.length 2) Point.origin).y -
        (sampleTriangle.points.getD 2 Point.origin).y ≠ 0 := by
  have hguard : raycastGuard (sampleTriangle.points.getD 2 Point.origin)
      (sampleTriangle.points.getD (prevIdx sampleTriangle.points.length 2) Point.origin)
      ⟨1, 1⟩ := by
    norm_num [raycastGuard, sampleTriangle, prevIdx]
  exact ⟨by simp [sampleTriangle], hguard,
    contains_guard_forces_nonzero_divisor sampleTriangle ⟨1, 1⟩ 2
      (by simp [sampleTriangle]) hguard⟩

/-- C2: every `EllipseShape` (any semi-axes, equal ones included) signals the
unsupported-operation failure on `perimeter`, while every `CircleShape`
returns `2 * π * radius`. -/
theorem ellipse_perimeter_always_fails_circle_succeeds :
    (∀ e : EllipseShape,
      e.perimeter = Except.error (GeomError.error "too hard to handle!"))
    ∧ (∀ c : CircleShape, c.perimeter = Except.ok (2 * Real.pi * c.radius)) :=
  ⟨fun _ => rfl, fun _ => rfl⟩

/-- C3 (counterexample to the claim): the area of
`EllipseShape((0,0), 1, -1)` is `π * 1 * (-1) < 0`, so the area operation is
not non-negative over arbitrary real semi-axis parameters. -/
theorem ellipse_negative_axis_negative_area :
    (EllipseShape.mk (Point.mk 0 0) 1 (-1)).area < 0 := by
  show Real.pi * 1 * (-1) < 0
  nlinarith [Real.pi_pos]

/-- C3 (amended): the area is non-negative for every `SegmentedShape` (the
absolute value) and for every `CircleShape` (any real radius, since the
radius enters squared); for an `EllipseShape` it is non-negative whenever
the semi-axes are non-negative, as the data model's invariant `a > 0, b > 0`
requires. -/
theorem area_nonneg_for_valid_shapes :
    (∀ s : SegmentedShape, 0 ≤ s.area)
    ∧ (∀ e : EllipseShape, 0 ≤ e.a → 0 ≤ e.b → 0 ≤ e.area)
    ∧ (∀ c : CircleShape, 0 ≤ c.area) := by
  refine ⟨fun s => abs_nonneg _, fun e ha hb => ?_, fun c => ?_⟩
  · exact mul_nonneg (mul_nonneg Real.pi_pos.le ha) hb
  · show (0:ℝ) ≤ Real.pi * c.radius * c.radius
    nlinarith [Real.pi_pos, mul_self_nonneg c.radius]

/-- C3 witness: the ellipse with semi-axes `1` and `2` satisfies the
invariant and indeed has non-negative area. -/
theorem area_nonneg_for_valid_shapes_witness :
    (0:ℝ) ≤ 1 ∧ (0:ℝ) ≤ 2 ∧ 0 ≤ (EllipseShape.mk (Point.mk 0 0) 1 2).area :=
  ⟨by norm_num, by norm_num,
    area_nonneg_for_valid_shapes.2.1 (EllipseShape.mk (Point.mk 0 0) 1 2)
      (by norm_num) (by norm_num)⟩

/-- C4: `EllipseShape.intersects` with an explicit epsilon holds exactly when
`|((x-cx)/a)^2 + ((y-cy)/b)^2 - 1| ≤ ε`, non-strictly: a deviation of
exactly `ε` still counts as intersecting. -/
theorem ellipse_intersects_iff_equation_within_epsilon (glob : ℝ) (e : EllipseShape)
    (p : Point) (ε : ℝ) :
    (EllipseShape.intersects glob e p (some ε) ↔
      |((p.x - e.center.x) / e.a) ^ 2 + ((p.y - e.center.y) / e.b) ^ 2 - 1| ≤ ε)
    ∧ (|e.equationFor p - 1| = ε → EllipseShape.intersects glob e p (some ε)) := by
  constructor
  · show |e.equationFor p - 1| ≤ ε ↔ _
    unfold EllipseShape.equationFor
    rw [div_pow, div_pow]
  · intro h
    show |e.equationFor p - 1| ≤ ε
    rw [h]

/-- C4 witness: on the unit circle, the point `(2, 0)` deviates from the
boundary equation by exactly `3`, and with `ε = 3` it intersects. -/
theorem ellipse_intersects_iff_equation_within_epsilon_witness :
    |(EllipseShape.mk (Point.mk 0 0) 1 1).equationFor (Point.mk 2 0) - 1| = 3
    ∧ EllipseShape.intersects 1 (EllipseShape.mk (Point.mk 0 0) 1 1) (Point.mk 2 0)
        (some 3) := by
  have heq : (EllipseShape.mk (Point.mk 0 0) 1 1).equationFor (Point.mk 2 0) = 4 := by
    unfold EllipseShape.equationFor
    norm_num
  have h : |(EllipseShape.mk (Point.mk 0 0) 1 1).equationFor (Point.mk 2 0) - 1| = 3 := by
    rw [heq, show (4:ℝ) - 1 = 3 by norm_num]
    exact abs_of_nonneg (by norm_num)
  exact ⟨h, (ellipse_intersects_iff_equation_within_epsilon 1 _ _ 3).2 h⟩

/-- C5: `Segment.intersects` with an explicit epsilon holds exactly when
`|dist(a,p) + dist(p,b) - dist(a,b)| < ε`, strictly: a deviation of exactly
`ε` does not count as contained. -/
theorem segment_intersects_iff_strict (glob : ℝ) (s : Segment) (p : Point) (ε : ℝ) :
    (Segment.intersects glob s p (some ε) ↔
      |s.a.distanceTo p + p.distanceTo s.b - s.a.distanceTo s.b| < ε)
    ∧ (|s.a.distanceTo p + p.distanceTo s.b - s.a.distanceTo s.b| = ε →
        ¬ Segment.intersects glob s p (some ε)) := by
  have hcomm : p.distanceTo s.b = s.b.distanceTo p := Point.distanceTo_comm p s.b
  constructor
  · show |s.a.distanceTo p + s.b.distanceTo p - s.a.distanceTo s.b| < ε ↔ _
    rw [hcomm]
  · intro h hcon
    have hlt : |s.a.distanceTo p + s.b.distanceTo p - s.a.distanceTo s.b| < ε := hcon
    rw [hcomm] at h
    rw [h] at hlt
    exact absurd hlt (lt_irrefl ε)

/-- C5 witness: for the segment from `(0,0)` to `(2,0)` and the collinear
outside point `(3,0)`, the distance-sum deviation is exactly `2`, and with
`ε = 2` the point is not contained. -/
theorem segment_intersects_iff_strict_witness :
    |(Point.mk 0 0).distanceTo (Point.mk 3 0) + (Point.mk 3 0).distanceTo (Point.mk 2 0)
        - (Point.mk 0 0).distanceTo (Point.mk 2 0)| = 2
    ∧ ¬ Segment.intersects 1 (Segment.mk (Point.mk 0 0) (Point.mk 2 0)) (Point.mk 3 0)
        (some 2) := by
  have h1 : (Point.mk 0 0).distanceTo (Point.mk 3 0) = 3 := by
    unfold Point.distanceTo
    rw [show ((0:ℝ) - 3) ^ 2 + ((0:ℝ) - 0) ^ 2 = 3 ^ 2 by norm_num]
    exact Real.sqrt_sq (by norm_num)
  have h2 : (Point.mk 3 0).distanceTo (Point.mk 2 0) = 1 := by
    unfold Point.distanceTo
    rw [show ((3:ℝ) - 2) ^ 2 + ((0:ℝ) - 0) ^ 2 = 1 ^ 2 by norm_num]
    exact Real.sqrt_sq (by norm_num)
  have h3 : (Point.mk 0 0).distanceTo (Point.mk 2 0) = 2 := by
    unfold Point.distanceTo
    rw [show ((0:ℝ) - 2) ^ 2 + ((0:ℝ) - 0) ^ 2 = 2 ^ 2 by norm_num]
    exact Real.sqrt_sq (by norm_num)
  have h : |(Point.mk 0 0).distanceTo (Point.mk 3 0) + (Point.mk 3 0).distanceTo (Point.mk 2 0)
      - (Point.mk 0 0).distanceTo (Point.mk 2 0)| = 2 := by
    rw [h1, h2, h3, show (3:ℝ) + 1 - 2 = 2 by norm_num]
    exact abs_of_nonneg (by norm_num)
  exact ⟨h, (segment_intersects_iff_strict 1 _ _ 2).2 h⟩

/-- C6: `pointAt` and `segmentAt` signal the distinct out-of-range failure
exactly when the index is at least the stored count, return the stored
element for an in-range index, and do not reject (merely yield `undefined`
for) negative indices — only the upper bound is checked. -/
theorem pointAt_segmentAt_bounds (s : SegmentedShape) (i : ℤ) :
    (s.pointAt i = Except.error (GeomError.rangeError "out of range access") ↔
      (s.points.length : ℤ) ≤ i)
    ∧ (s.segmentAt i = Except.error (GeomError.rangeError "out of range access") ↔
      (s.segments.length : ℤ) ≤ i)
    ∧ (0 ≤ i → i < (s.points.length : ℤ) →
        s.pointAt i = Except.ok (some (s.points.getD i.toNat Point.origin))
        ∧ s.segmentAt i = Except.ok (some (s.segments.getD i.toNat Segment.origin)))
    ∧ (i < 0 →
        s.pointAt i = Except.ok none ∧ s.segmentAt i = Except.ok none) := by
  refine ⟨(safeAt_spec s.points Point.origin i).1,
    (safeAt_spec s.segments Segment.origin i).1,
    fun h0 hlt => ⟨(safeAt_spec s.points Point.origin i).2.1 h0 hlt,
      (safeAt_spec s.segments Segment.origin i).2.1 h0 ?_⟩,
    fun hneg => ⟨(safeAt_spec s.points Point.origin i).2.2 hneg,
      (safeAt_spec s.segments Segment.origin i).2.2 hneg⟩⟩
  rw [s.segments_length]
  exact hlt

/-- C6 witness: on the sample triangle, index `1` returns the stored point,
index `-1` is not rejected (it yields `undefined`), and index `5` signals
the out-of-range failure. -/
theorem pointAt_segmentAt_bounds_witness :
    ((0:ℤ) ≤ 1 ∧ (1:ℤ) < (sampleTriangle.points.length : ℤ)
      ∧ sampleTriangle.pointAt 1 = Except.ok (some (Point.mk 4 0)))
    ∧ ((-1:ℤ) < 0 ∧ sampleTriangle.pointAt (-1) = Except.ok none)
    ∧ ((sampleTriangle.points.length : ℤ) ≤ 5
      ∧ sampleTriangle.pointAt 5 =
          Except.error (GeomError.rangeError "out of range access")) := by
  have hlen : sampleTriangle.points.length = 3 := by simp [sampleTriangle]
  refine ⟨⟨by norm_num, by rw [hlen]; norm_num, ?_⟩,
    ⟨by norm_num, ?_⟩, ⟨by rw [hlen]; norm_num, ?_⟩⟩
  · have h := ((pointAt_segmentAt_bounds sampleTriangle 1).2.2.1
      (by norm_num) (by rw [hlen]; norm_num)).1
    rw [h]
    simp [sampleTriangle]
  · exact ((pointAt_segmentAt_bounds sampleTriangle (-1)).2.2.2 (by norm_num)).1
  · exact (pointAt_segmentAt_bounds sampleTriangle 5).1.mpr (by rw [hlen]; norm_num)

/-- C7: reversing the point list leaves the shoelace area unchanged — the
traversal direction flips the sign of the accumulated sum and the final
absolute value cancels it. -/
theorem area_invariant_under_reversal (s : SegmentedShape) :
    s.reversed.area = s.area := by
  show |shoelace s.points.reverse| = |shoelace s.points|
  rw [shoelace_reverse, abs_neg]

/-- C8: the point-based perimeter fold equals the sum of the lengths of the
derived boundary segments. -/
theorem perimeter_eq_sum_segment_lengths (s : SegmentedShape) :
    s.perimeter = (s.segments.map Segment.length).sum := by
  obtain ⟨p, t, hpt⟩ : ∃ p t, s.points = p :: t := by
    cases hp : s.points with
    | nil => have h3 := s.three_le; rw [hp] at h3; simp at h3
    | cons p t => exact ⟨p, t, rfl⟩
  show perimeterOf s.points = ((mkSegments s.points).map Segment.length).sum
  rw [hpt]
  have h1 : perimeterOf (p :: t) =
      (List.zipWith Point.distanceTo (p :: t) (t ++ [p])).sum :=
    cyclicFold_eq Point.distanceTo p t
  have h2 : mkSegments (p :: t) = List.zipWith Segment.mk (p :: t) (t ++ [p]) :=
    range_map_cyclic Segment.mk p t
  rw [h1, h2, List.map_zipWith]
  rfl

/-- C9: a shape built from `N ≥ 3` points has exactly `N` segments, and
segment `i` runs from point `i` to point `(i+1) mod N`. -/
theorem segments_align_with_points (s : SegmentedShape) :
    s.segments.length = s.points.length
    ∧ ∀ i, i < s.points.length →
        s.segments.getD i Segment.origin =
          Segment.mk (s.points.getD i Point.origin)
            (s.points.getD ((i + 1) % s.points.length) Point.origin) := by
  refine ⟨s.segments_length, fun i hi => ?_⟩
  show (mkSegments s.points).getD i Segment.origin = _
  rw [mkSegments_getD s.points i hi, cyclicNext_mod s.points i hi]

/-- C9 witness: on the sample triangle, segment `0` runs from point `0` to
point `1`. -/
theorem segments_align_with_points_witness :
    0 < sampleTriangle.points.length
    ∧ sampleTriangle.segments.getD 0 Segment.origin =
        Segment.mk (Point.mk 0 0) (Point.mk 4 0) := by
  have h := (segments_align_with_points sampleTriangle).2 0 (by simp [sampleTriangle])
  refine ⟨by simp [sampleTriangle], ?_⟩
  rw [h]
  simp [sampleTriangle]

/-- C10: with an explicitly supplied epsilon, every boundary-intersection
test (segment, polygon, ellipse) is unaffected by reassignments of the
process-wide default tolerance: `setEpsilon` influences only calls that omit
the epsilon argument. -/
theorem explicit_epsilon_ignores_global (glob v : ℝ) (seg : Segment)
    (s : SegmentedShape) (e : EllipseShape) (p : Point) (ε : ℝ) :
    (Segment.intersects (setEpsilon v glob) seg p (some ε) ↔
      Segment.intersects glob seg p (some ε))
    ∧ (SegmentedShape.intersects (setEpsilon v glob) s p (some ε) ↔
      SegmentedShape.intersects glob s p (some ε))
    ∧ (EllipseShape.intersects (setEpsilon v glob) e p (some ε) ↔
      EllipseShape.intersects glob e p (some ε)) :=
  ⟨Iff.rfl, Iff.rfl, Iff.rfl⟩

end
